import Mathlib

/-!
Verification development for the postgres-gdb tree-walking / tagged-list
inspection script (src/postgres-gdb.py).

The Python script runs inside gdb and inspects a paused PostgreSQL process.
We shallowly embed the parts of the gdb Python API the script uses:

* `GdbType` models `gdb.Type` values: pointer types, scalar types and
  struct types with a field list.  Each struct field carries an
  `is_base_class` flag, an optional field name, and a field type, in
  declaration order, matching `gdb.Field`.
* `GVal` models `gdb.Value`: integers, bools, enum values (which carry both
  their numeric value and their textual enumerator, since the script uses
  both `int(v)` and `str(v)`), typed pointers into a heap, struct values,
  and arrays.
* A `Heap` maps addresses to stored values; a `Catalog` models
  `gdb.lookup_type`'s name-to-type table.
* Fallible operations return `Except PgErr`, mirroring Python exceptions
  (`KeyError` from a dict lookup, `gdb.error` from a failed type lookup,
  `AttributeError`, and so on).  `StopIteration` is not an error: the list
  iterator's step function returns `Option` instead.
-/

/-- Errors a decode / walk can raise.  `keyError` models Python's `KeyError`
from `ListCell.type_values[...]` (the spec's `UnknownTagError`); `gdbError`
models `gdb.error` from a failed `gdb.lookup_type` or a missing struct
member (the spec's `TypeResolutionError`); `attributeError` models Python's
`AttributeError` (e.g. `None.name`); `typeError` models Python's `TypeError`
(e.g. `.target()` on a non-pointer type); `valueError` models Python's
`ValueError` (tuple unpacking of the wrong arity); `outOfRange` is a model-level
marker for reading the elements array outside the materialized window;
`fuelOut` is a model-level marker for exhausting the recursion fuel. -/
inductive PgErr : Type where
  | keyError : PgErr
  | gdbError : PgErr
  | attributeError : PgErr
  | typeError : PgErr
  | valueError : PgErr
  | outOfRange : PgErr
  | fuelOut : PgErr
deriving DecidableEq, Repr

/-- Model of `gdb.Type`.  A struct field is `(is_base_class, name, type)`,
in declaration order. -/
inductive GdbType : Type where
  | void : GdbType
  | scalar : String → GdbType
  | ptrTo : GdbType → GdbType
  | struc : Option String → String → List (Bool × Option String × GdbType) → GdbType

/-- `gdb.Type.name` — `None` for pointer types. -/
def GdbType.name? : GdbType → Option String
  | .void => some "void"
  | .scalar n => some n
  | .ptrTo _ => none
  | .struc n _ _ => n

/-- `str(typ)` for a `gdb.Type`. -/
def GdbType.toStr : GdbType → String
  | .void => "void"
  | .scalar n => n
  | .ptrTo t => t.toStr ++ " *"
  | .struc _ s _ => s

/-- `gdb.Type.fields()`.  gdb's `typy_get_composite` strips pointer (and
reference) types before listing fields, so the fields of `T *` are the
fields of `T`.  Non-composite types are modelled as having no fields. -/
def GdbType.fieldsOf : GdbType → List (Bool × Option String × GdbType)
  | .ptrTo t => t.fieldsOf
  | .struc _ _ fs => fs
  | _ => []

/-- The inner helper `type_name` of `TreeWalker.get_action_func`: strip one
pointer level, then take the type's name, falling back to `str(typ)`. -/
def type_name (typ : GdbType) : String :=
  let t := match typ with
    | .ptrTo u => u
    | u => u
  match t.name? with
  | some n => n
  | none => t.toStr

/-- The first field of a field list flagged `is_base_class` (the only base
the resolver's `for` loop ever examines, since both branches `return`). -/
def firstBase? : List (Bool × Option String × GdbType) → Option GdbType
  | [] => none
  | (isb, _, ty) :: rest => if isb then some ty else firstBase? rest

theorem sizeOf_firstBase_lt_list (fs : List (Bool × Option String × GdbType))
    (b : GdbType) (h : firstBase? fs = some b) : sizeOf b < sizeOf fs := by
  induction fs with
  | nil => simp [firstBase?] at h
  | cons hd rest ih =>
    obtain ⟨isb, nm, ty⟩ := hd
    by_cases hb : isb
    · simp [firstBase?, hb] at h
      subst h
      simp
      omega
    · simp [firstBase?, hb] at h
      have := ih h
      simp
      omega

theorem sizeOf_fieldsOf_le : (t : GdbType) → sizeOf t.fieldsOf ≤ sizeOf t
  | .void => by simp [GdbType.fieldsOf]
  | .scalar n => by simp [GdbType.fieldsOf]
  | .ptrTo u => by
    have := sizeOf_fieldsOf_le u
    simp [GdbType.fieldsOf]
    omega
  | .struc n s fs => by simp [GdbType.fieldsOf]

theorem sizeOf_firstBase_lt (t b : GdbType) (h : firstBase? t.fieldsOf = some b) :
    sizeOf b < sizeOf t :=
  lt_of_lt_of_le (sizeOf_firstBase_lt_list _ _ h) (sizeOf_fieldsOf_le t)

/-- The engine object's attribute namespace (`self` in the Python class):
each attribute name paired with whether `callable(getattr(self, name))`
holds.  `hasattr` is membership; resolved hooks are identified by their
attribute name. -/
structure HookEnv : Type where
  attrs : List (String × Bool)
deriving DecidableEq, Repr

/-- `hasattr(self, n)`. -/
def hasattrE (env : HookEnv) (n : String) : Bool :=
  (env.attrs.lookup n).isSome

/-- `hasattr(self, n) and callable(getattr(self, n))` minus the `hasattr`
part: whether the attribute exists and is callable. -/
def callableE (env : HookEnv) (n : String) : Bool :=
  (env.attrs.lookup n).getD false

/-- `TreeWalker.get_action_func(element_type, action_prefix)`.  Returns the
name of the resolved hook attribute (hook identity), or `none`.

Faithful to the source: the exact-name probe requires the attribute to be
callable; the `for` loop over `element_type.fields()` skips non-base-class
fields and, at the first base-class field, either returns that base's
hook name on a bare `hasattr` probe or unconditionally returns the result
of recursing into that base (so later bases are never examined); only when
no base-class field exists at all does control fall through to the
family-default probe on the bare action prefix. -/
def get_action_func (env : HookEnv) (element_type : GdbType) (action_pfx : String) :
    Option String :=
  let func_name := action_pfx ++ type_name element_type
  if hasattrE env func_name && callableE env func_name then some func_name
  else
    match h : firstBase? element_type.fieldsOf with
    | some typ =>
      let func_name2 := action_pfx ++ type_name typ
      if hasattrE env func_name2 then some func_name2
      else get_action_func env typ action_pfx
    | none =>
      if hasattrE env action_pfx && callableE env action_pfx then some action_pfx
      else none
termination_by sizeOf element_type
decreasing_by exact sizeOf_firstBase_lt _ _ h

/-- The chain of ancestor types the resolver can traverse: repeatedly take
the first declared base-class field. -/
def hookChain (t : GdbType) : List GdbType :=
  match h : firstBase? t.fieldsOf with
  | none => []
  | some b => b :: hookChain b
termination_by sizeOf t
decreasing_by exact sizeOf_firstBase_lt _ _ h

/-- Flattened form of the resolution order actually implemented: the
exact-dynamic-type hook (which must be callable) wins; otherwise the first
ancestor along the first-declared-base chain whose hook name merely exists
as an attribute wins; otherwise the family-default bare-prefix hook (which
must be callable); otherwise no hook. -/
def resolveFlat (env : HookEnv) (t : GdbType) (pfx : String) : Option String :=
  let exact := pfx ++ type_name t
  if hasattrE env exact && callableE env exact then some exact
  else
    match (hookChain t).find? (fun b => hasattrE env (pfx ++ type_name b)) with
    | some b => some (pfx ++ type_name b)
    | none => if hasattrE env pfx && callableE env pfx then some pfx else none

/-- Modelled from the spec: step 3 of §4.3 applied to one type — search the
hook named after the type itself, else recurse through the first declared
base class; no family default at this stage.  Used only to state what the
spec's step 1 (template/element-type-keyed search, absent from the code)
would resolve. -/
def searchHier (env : HookEnv) (pfx : String) (t : GdbType) : Option String :=
  if hasattrE env (pfx ++ type_name t) then some (pfx ++ type_name t)
  else
    match h : firstBase? t.fieldsOf with
    | some b => searchHier env pfx b
    | none => none
termination_by sizeOf t
decreasing_by exact sizeOf_firstBase_lt _ _ h

/-- Modelled from the spec: the full resolution algorithm of §4.3 *as the
spec states it*, including step 1: when an element type is present, first
search for a hook named `<pfx>templ_<elementTypeName>` over the element
type's hierarchy, and only then fall back to steps 2-5 on the node's own
dynamic type (which coincide with `resolveFlat`).  The source's
`get_action_func` has no such step; this definition exists to exhibit the
divergence. -/
def resolveSpecWithElem (env : HookEnv) (pfx : String) (dynT : GdbType)
    (elemT : Option GdbType) : Option String :=
  match elemT with
  | some et =>
    match searchHier env (pfx ++ "templ_") et with
    | some nm => some nm
    | none => resolveFlat env dynT pfx
  | none => resolveFlat env dynT pfx

theorem lex_le_lt {a c b d : Nat} (h1 : a ≤ c) (h2 : b < d) :
    Prod.Lex (· < ·) (· < ·) (a, b) (c, d) := by
  rcases lt_or_eq_of_le h1 with h | h
  · exact Prod.Lex.left _ _ h
  · subst h; exact Prod.Lex.right _ h2

mutual

/-- `gdb.types.has_field(type, name)`: true if the type (or, recursively,
one of its base classes) declares a non-base field with the given name. -/
def has_field : GdbType → String → Bool
  | t, fname => hasFieldFs t.fieldsOf fname
termination_by t _ => (sizeOf t, 1)
decreasing_by
  exact lex_le_lt (sizeOf_fieldsOf_le t) (by omega)

/-- The recursion of `gdb.types.has_field` over a field list. -/
def hasFieldFs : List (Bool × Option String × GdbType) → String → Bool
  | [], _ => false
  | (isb, nm, ty) :: rest, fname =>
    (if isb then has_field ty fname else nm == some fname) || hasFieldFs rest fname
termination_by fs _ => (sizeOf fs, 0)
decreasing_by
  all_goals apply Prod.Lex.left
  all_goals simp
  all_goals omega

end

/-- Model of `gdb.Value`.  Enum values carry both their numeric value and
their enumerator text because the script uses both `int(v)` and `str(v)`;
pointers carry the pointee type and an address into the heap. -/
inductive GVal : Type where
  | intv : Int → GVal
  | boolv : Bool → GVal
  | enumv : Int → String → GVal
  | ptrv : GdbType → Nat → GVal
  | structv : GdbType → List (String × GVal) → GVal
  | arrv : List GVal → GVal

/-- Memory of the inspected process: address to stored object. -/
abbrev Heap := List (Nat × GVal)

/-- `gdb.lookup_type`'s table of named types. -/
abbrev Catalog := List (String × GdbType)

def heapGet (heap : Heap) (a : Nat) : Option GVal :=
  heap.lookup a

/-- `gdb.lookup_type(n)`: resolve a type by name, raising `gdb.error` when
the name is unknown. -/
def lookup_type (catalog : Catalog) (n : String) : Except PgErr GdbType :=
  match catalog.lookup n with
  | some t => .ok t
  | none => .error .gdbError

/-- `val.type` for a value. -/
def GVal.gtype : GVal → GdbType
  | .intv _ => .scalar "int"
  | .boolv _ => .scalar "_Bool"
  | .enumv _ _ => .scalar "NodeTag"
  | .ptrv t _ => .ptrTo t
  | .structv t _ => t
  | .arrv _ => .scalar "array"

/-- `val.dynamic_type`.  The inspected program is C (no vtables / RTTI),
where gdb's dynamic type coincides with the declared type. -/
def dynamicType (v : GVal) : GdbType :=
  v.gtype

/-- `val.cast(t)`: for a pointer value cast to a pointer type, keep the
address and adopt the new pointee type; other casts used by the script are
identity-like. -/
def gvalCast (v : GVal) (t : GdbType) : GVal :=
  match v, t with
  | .ptrv _ a, .ptrTo tt => .ptrv tt a
  | _, _ => v

/-- `str(val)`. -/
def pyStr : GVal → String
  | .intv i => toString i
  | .boolv b => if b then "true" else "false"
  | .enumv _ n => n
  | .ptrv _ a => "0x" ++ toString a
  | .structv _ _ => "{...}"
  | .arrv _ => "{...}"

/-- `int(val)`. -/
def pyInt : GVal → Int
  | .intv i => i
  | .boolv b => if b then 1 else 0
  | .enumv n _ => n
  | .ptrv _ a => (a : Int)
  | _ => 0

/-- `val[f]`: read a struct member, dereferencing one pointer level first
when `val` is a pointer (gdb subscripting auto-dereferences). -/
def readField (heap : Heap) (val : GVal) (f : String) : Except PgErr GVal :=
  match val with
  | .structv _ fs =>
    match fs.lookup f with
    | some v => .ok v
    | none => .error .gdbError
  | .ptrv _ a =>
    match heapGet heap a with
    | some (.structv _ fs) =>
      match fs.lookup f with
      | some v => .ok v
      | none => .error .gdbError
    | _ => .error .gdbError
  | _ => .error .typeError

/-- `self._elements[i]`: index the materialized elements array.  Reading
outside the materialized window is the model-level error `outOfRange`
(real gdb would read arbitrary memory there). -/
def arrIndex (v : GVal) (i : Int) : Except PgErr GVal :=
  match v with
  | .arrv xs =>
    if h : 0 ≤ i ∧ i.toNat < xs.length then .ok (xs.get ⟨i.toNat, h.2⟩)
    else .error .outOfRange
  | _ => .error .typeError

/-- The opening conditional of `cast_Node(val)`: if the pointee type is
`void`, cast to `Node *` (`.target()` on a non-pointer type raises
`TypeError`). -/
def cast_Node_step1 (catalog : Catalog) (val : GVal) : Except PgErr GVal :=
  match val with
  | .ptrv t a =>
    match t with
    | .void =>
      match lookup_type catalog "Node" with
      | .ok nodeT => .ok (.ptrv nodeT a)
      | .error e => .error e
    | _ => .ok val
  | _ => .error .typeError

/-- `cast_Node(val)`: after the `void *` adjustment, read the discriminant
tag at the start of the pointee (`val['type']`), strip the two-character
prefix from its textual form, look the resulting name up in the type
catalog and cast the pointer to a pointer to that concrete type. -/
def cast_Node (heap : Heap) (catalog : Catalog) (val : GVal) : Except PgErr GVal :=
  match cast_Node_step1 catalog val with
  | .error e => .error e
  | .ok v =>
    match readField heap v "type" with
    | .error e => .error e
    | .ok tagv =>
      match lookup_type catalog ((pyStr tagv).drop 2) with
      | .error e => .error e
      | .ok typ => .ok (gvalCast v (.ptrTo typ))

/-- `ListCell.ptr` etc.: the four known discriminant tags. -/
def ListCell_ptr : Int := 1
def ListCell_Int : Int := 451
def ListCell_Oid : Int := 452
def ListCell_Xid : Int := 453

/-- `ListCell.type_values`: tag to union-member-name table. -/
def type_values : List (Int × String) :=
  [(ListCell_ptr, "ptr_value"), (ListCell_Int, "int_value"),
   (ListCell_Oid, "oid_value"), (ListCell_Xid, "xid_value")]

/-- A decoded `ListCell`. -/
structure ListCellL : Type where
  value_type : Int
  value : GVal

/-- `ListCell.__init__(typ, val, val_type)`: look the tag up in
`type_values` (Python raises `KeyError` on an unknown tag), read the
selected union member, and for the pointer kind reinterpret it — through
`cast_Node` when the declared element type is named `Node`, else as a
pointer to the declared element type.  `val_type` being `None` while the
tag is the pointer kind raises `AttributeError` (`None.name`). -/
def mkListCell (heap : Heap) (catalog : Catalog) (typ : Int) (val : GVal)
    (val_type : Option GdbType) : Except PgErr ListCellL :=
  match type_values.lookup typ with
  | none => .error .keyError
  | some member =>
    match readField heap val member with
    | .error e => .error e
    | .ok v0 =>
      if typ ≠ ListCell_ptr then .ok ⟨typ, v0⟩
      else
        match val_type with
        | none => .error .attributeError
        | some vt =>
          if vt.name? == some "Node" then
            match cast_Node heap catalog v0 with
            | .error e => .error e
            | .ok v1 => .ok ⟨typ, v1⟩
          else .ok ⟨typ, gvalCast v0 (.ptrTo vt)⟩

/-- The iterator state of class `List`. -/
structure ListL : Type where
  _type : Int
  type_name : String
  length : Int
  _elements : GVal
  _index : Int
  _ptr_type : Option GdbType

/-- `List.__init__(val, ptr_type_name)`: read the header's discriminant and
length, translate the discriminant through `type_values` (raising
`KeyError` when unknown), grab the elements array and resolve the optional
expected element type. -/
def mkList (heap : Heap) (catalog : Catalog) (val : GVal)
    (ptr_type_name : Option String) : Except PgErr ListL :=
  match readField heap val "type" with
  | .error e => .error e
  | .ok tv =>
    let ty := pyInt tv
    match type_values.lookup ty with
    | none => .error .keyError
    | some tn =>
      match readField heap val "length" with
      | .error e => .error e
      | .ok lv =>
        match readField heap val "elements" with
        | .error e => .error e
        | .ok ev =>
          match ptr_type_name with
          | some n =>
            match lookup_type catalog n with
            | .error e => .error e
            | .ok pt => .ok ⟨ty, tn, pyInt lv, ev, 0, some pt⟩
          | none => .ok ⟨ty, tn, pyInt lv, ev, 0, none⟩

/-- `List.__next__`: `StopIteration` on an exhausted iterator is not an
error and is modelled as `.ok none`; otherwise decode the element at the
current index and advance. -/
def ListL.next (heap : Heap) (catalog : Catalog) (l : ListL) :
    Except PgErr (Option (ListCellL × ListL)) :=
  if l._index ≥ l.length then .ok none
  else
    match arrIndex l._elements l._index with
    | .error e => .error e
    | .ok elv =>
      match mkListCell heap catalog l._type elv l._ptr_type with
      | .error e => .error e
      | .ok cell => .ok (some (cell, { l with _index := l._index + 1 }))

/-- Run the iterator to exhaustion (Python's `for` loop), collecting the
yielded cells and the final iterator state.  `fuel` bounds the number of
`next` calls; the loop itself is unbounded in Python. -/
def runIter (heap : Heap) (catalog : Catalog) : Nat → ListL →
    Except PgErr (List ListCellL × ListL)
  | 0, _ => .error .fuelOut
  | fuel + 1, l =>
    match ListL.next heap catalog l with
    | .error e => .error e
    | .ok none => .ok ([], l)
    | .ok (some (c, l')) =>
      match runIter heap catalog fuel l' with
      | .error e => .error e
      | .ok (cs, lf) => .ok (c :: cs, lf)

/-- `ExprTraverser.walk_List(val)`: iterate `List(val, "Node")` and collect
`ele.value` for every yielded element. -/
def walk_List (heap : Heap) (catalog : Catalog) (fuel : Nat) (val : GVal) :
    Except PgErr (List GVal) :=
  match mkList heap catalog val (some "Node") with
  | .error e => .error e
  | .ok l =>
    match runIter heap catalog fuel l with
    | .error e => .error e
    | .ok (cells, _) => .ok (cells.map (fun c => c.value))

/-- `ExprTraverser._walk_to_args(val)`: descend into `val['args']` when the
pointee type has an `args` field, else no children. -/
def _walk_to_args (heap : Heap) (catalog : Catalog) (fuel : Nat) (val : GVal) :
    Except PgErr (List GVal) :=
  match val with
  | .ptrv t _ =>
    if has_field t "args" then
      match readField heap val "args" with
      | .error e => .error e
      | .ok av => walk_List heap catalog fuel av
    else .ok []
  | _ => .error .typeError

/-- `ExprTraverser.walk_(val)`. -/
def walk_ (heap : Heap) (catalog : Catalog) (fuel : Nat) (val : GVal) :
    Except PgErr (List GVal) :=
  _walk_to_args heap catalog fuel val

/-- A value of the `display_fields` dict of `ExprTraverser.show_`: either a
single property string or a tuple of them. -/
inductive PropSpec : Type where
  | one : String → PropSpec
  | many : List String → PropSpec

/-- The per-type whitelist of properties displayed by
`ExprTraverser.show_`. -/
def display_fields : List (String × PropSpec) :=
  [("Const", .many ["constisnull:true", "consttype", "constvalue"]),
   ("Var", .many ["varno", "varattno", "vartype"]),
   ("BoolExpr", .one "boolop"),
   ("OpExpr", .one "opno"),
   ("ScalarArrayOpExpr", .one "opno"),
   ("FuncExpr", .many ["funcid", "funcresulttype"])]

/-- The `:value` gate of the inner `prop_str(prop)` of
`ExprTraverser.show_`: when the property name carries a `:literal`
suffix, the property is hidden (`.ok none`) unless its printed value
equals the literal; otherwise the bare property name passes through. -/
def prop_str_gate (heap : Heap) (val : GVal) (prop : String) :
    Except PgErr (Option String) :=
  if prop.contains ':' then
    match prop.splitOn ":" with
    | [p, disp_val] =>
      match readField heap val p with
      | .error e => .error e
      | .ok v => if disp_val ≠ pyStr v then .ok none else .ok (some p)
    | _ => .error .valueError
  else .ok (some prop)

/-- The inner `prop_str(prop)` of `ExprTraverser.show_`: a hidden gated
property renders as the empty string; otherwise render `name = value`,
with the type-name prefix stripped from the property name when the
property starts with the lowercased type name. -/
def prop_str (heap : Heap) (val : GVal) (typname : String) (prop : String) :
    Except PgErr String :=
  match prop_str_gate heap val prop with
  | .error e => .error e
  | .ok none => .ok ""
  | .ok (some p) =>
    match readField heap val p with
    | .error e => .error e
    | .ok v =>
      .ok ((if (typname.toLower).isPrefixOf p then p.drop typname.length else p)
        ++ " = " ++ pyStr v)

/-- `[prop_str(p) for p in props]`, propagating errors. -/
def propStrs (heap : Heap) (val : GVal) (typname : String) :
    List String → Except PgErr (List String)
  | [] => .ok []
  | p :: ps =>
    match prop_str heap val typname p with
    | .error e => .error e
    | .ok s =>
      match propStrs heap val typname ps with
      | .error e => .error e
      | .ok ss => .ok (s :: ss)

/-- `ExprTraverser.show_(val)`: look the pointee's type name up in the
whitelist; outside the whitelist (including a nameless pointee type) the
result is the empty string; inside it, render the whitelisted properties,
joining the non-empty renderings with a comma.  It always produces a
string — never Python's `None`. -/
def show_ (heap : Heap) (val : GVal) : Except PgErr String :=
  match val with
  | .ptrv t _ =>
    match t.name? with
    | none => .ok ""
    | some typname =>
      match display_fields.lookup typname with
      | none => .ok ""
      | some (.one p) => prop_str heap val typname p
      | some (.many ps) =>
        match propStrs heap val typname ps with
        | .error e => .error e
        | .ok strs => .ok (String.intercalate ", " (strs.filter (fun s => s != "")))
  | _ => .error .typeError

/-- The action-name constants of `TreeWalker` (`SHOW_FUNC_PREFIX`,
`WALK_FUNC_PREFIX`). -/
def show_func_pfx : String := "show_"
def walk_func_pfx : String := "walk_"

/-- The mutable traversal state of a `TreeWalker`, plus the lines printed
so far (the rendering sink). -/
structure WalkerState : Type where
  level_graph : List String
  autoncvar : Nat
  current_level : Nat
  output : List String
deriving DecidableEq, Repr

/-- Modelled from the spec: `AutoNumCVar.set_var` from the repository's
`autocvar` module (not under src/) — the alias allocator hands out a fresh
short name per visited node from a monotonically increasing counter. -/
def set_var (n : Nat) : String × Nat :=
  ("$nv" ++ toString n, n + 1)

/-- A tree-walker engine object: its attribute namespace (for hook
resolution) together with the behaviour of its describe hooks (returning
`some` text or Python `None`) and expand hooks (returning children). -/
structure TW : Type where
  env : HookEnv
  showFn : String → GVal → Except PgErr (Option String)
  walkFn : String → GVal → Except PgErr (List GVal)

/-- The describe step of `TreeWalker.do_walk`: `element_show_info` starts
as the empty string, and is replaced by the describe hook's result when
one resolves. -/
def showResult (tw : TW) (expr_typed : GdbType) (expr_casted : GVal) :
    Except PgErr (Option String) :=
  match get_action_func tw.env expr_typed show_func_pfx with
  | some nm => tw.showFn nm expr_casted
  | none => .ok (some "")

/-- The entry steps of `TreeWalker.do_walk`: record the current level, take
the joined ancestor connector glyphs for display *before* retiring the
closing glyphs (every backtick in `level_graph` is then replaced by a
blank), and allocate a fresh alias.  Returns the rendered ancestor-glyph
string, the left margin, and the updated state. -/
def preamble (level : Nat) (st : WalkerState) : String × String × WalkerState :=
  let st1 : WalkerState := { st with current_level := level }
  let lg := String.intercalate "  " (st1.level_graph.take level)
  let st2 : WalkerState :=
    { st1 with level_graph := st1.level_graph.map (fun c => if c == "`" then " " else c) }
  let cv := set_var st2.autoncvar
  let st3 : WalkerState := { st2 with autoncvar := cv.2 }
  let lm := (if level == 0 then "" else "--") ++ cv.1
  (lg, lm, st3)

/-- The line `do_walk` prints for a node:
`"{}{} ({}) {} {}".format(level_graph, left_margin, expr_typed, expr, info)`. -/
def nodeLine (lg lm : String) (expr_typed : GdbType) (expr : GVal) (info : String) :
    String :=
  lg ++ lm ++ " (" ++ expr_typed.toStr ++ ") " ++ pyStr expr ++ " " ++ info

/-- The `for i, child in enumerate(children)` loop at the end of
`do_walk`: on the last child the connector at this level switches to a
backtick; each child is visited by `recur` (the recursive `do_walk` call
at `level + 1`). -/
def walkChildrenLoop (recur : GVal → WalkerState → Except PgErr WalkerState)
    (level : Nat) : List GVal → WalkerState → Except PgErr WalkerState
  | [], st => .ok st
  | child :: rest, st =>
    let st1 := if rest.isEmpty then
      { st with level_graph := st.level_graph.set level "`" } else st
    match recur child st1 with
    | .error e => .error e
    | .ok st2 => walkChildrenLoop recur level rest st2

/-- The expansion tail of `TreeWalker.do_walk`: resolve the expand hook
(no hook, or no children, makes the node a leaf), otherwise ensure the
connector sequence covers this level, mark it `"|"`, and loop over the
children. -/
def expandPhase (recur : GVal → WalkerState → Except PgErr WalkerState)
    (env : HookEnv) (walkFn : String → GVal → Except PgErr (List GVal))
    (expr_typed : GdbType) (expr_casted : GVal) (level : Nat) (st : WalkerState) :
    Except PgErr WalkerState :=
  match get_action_func env expr_typed walk_func_pfx with
  | none => .ok st
  | some wn =>
    match walkFn wn expr_casted with
    | .error e => .error e
    | .ok children =>
      if children.isEmpty then .ok st
      else
        let st1 : WalkerState := { st with
          level_graph := if st.level_graph.length < level + 1 then
            st.level_graph ++ ["|"] else st.level_graph.set level "|" }
        walkChildrenLoop recur level children st1

/-- `TreeWalker.do_walk(expr, level)`.  The node's dynamic type is taken,
the node is cast to it, the preamble renders the margin, the describe hook
runs (a `None` result suppresses the printed line, any string — including
the empty one — is printed), and the expand hook's children are visited
in order at `level + 1`.  `fuel` bounds the recursion depth (the Python
recursion is unbounded); running out of fuel is the model error
`fuelOut`. -/
def do_walk (tw : TW) : Nat → GVal → Nat → WalkerState → Except PgErr WalkerState
  | 0, _, _, _ => .error .fuelOut
  | fuel + 1, expr, level, st =>
    let expr_typed := dynamicType expr
    let expr_casted := gvalCast expr expr_typed
    let pre := preamble level st
    match showResult tw expr_typed expr_casted with
    | .error e => .error e
    | .ok info? =>
      let st2 := match info? with
        | some info =>
          { pre.2.2 with output :=
              pre.2.2.output ++ [nodeLine pre.1 pre.2.1 expr_typed expr info] }
        | none => pre.2.2
      expandPhase (fun c stc => do_walk tw fuel c (level + 1) stc)
        tw.env tw.walkFn expr_typed expr_casted level st2

/-- `TreeWalker.walk(expr)`: reset the traversal state and walk from level
zero.  The alias counter restarts and the connector sequence clears. -/
def walk (tw : TW) (fuel : Nat) (expr : GVal) : Except PgErr WalkerState :=
  do_walk tw fuel expr 0 ⟨[], 0, 0, []⟩

/-- The attribute namespace of an `ExprTraverser` object: its own methods,
the methods inherited from `TreeWalker` and `gdb.Command`, the class
string constants and the instance data attributes (non-callable). -/
def exprEnvAttrs : List (String × Bool) :=
  [("invoke", true), ("walk_List", true), ("_walk_to_args", true), ("walk_", true),
   ("show_", true), ("walk", true), ("do_walk", true), ("get_action_func", true),
   ("reset", true), ("dont_repeat", true),
   ("SHOW_FUNC_PREFIX", false), ("WALK_FUNC_PREFIX", false),
   ("level_graph", false), ("autoncvar", false), ("current_level", false)]

/-- The `ExprTraverser` engine: hook resolution runs over `exprEnvAttrs`;
the describe hook `show_` always wraps its string result in `some`
(a Python function that never returns `None`); the expand hooks are
`walk_List` and the family default `walk_`. -/
def exprTW (heap : Heap) (catalog : Catalog) (fuelL : Nat) : TW where
  env := ⟨exprEnvAttrs⟩
  showFn := fun nm v =>
    if nm == "show_" then
      match show_ heap v with
      | .error e => .error e
      | .ok s => .ok (some s)
    else .error .attributeError
  walkFn := fun nm v =>
    if nm == "walk_List" then walk_List heap catalog fuelL v
    else if nm == "walk_" then walk_ heap catalog fuelL v
    else .error .attributeError

/-! ## Resolution-order lemmas (for C1 and C2) -/

theorem hookChain_none (t : GdbType) (h : firstBase? t.fieldsOf = none) :
    hookChain t = [] := by
  rw [hookChain]
  split <;> simp_all

theorem hookChain_some (t b : GdbType) (h : firstBase? t.fieldsOf = some b) :
    hookChain t = b :: hookChain b := by
  rw [hookChain]
  split <;> simp_all

theorem gaf_exact (env : HookEnv) (t : GdbType) (pfx : String)
    (h : (hasattrE env (pfx ++ type_name t) && callableE env (pfx ++ type_name t)) = true) :
    get_action_func env t pfx = some (pfx ++ type_name t) := by
  rw [get_action_func]
  simp [h]

theorem gaf_no_base (env : HookEnv) (t : GdbType) (pfx : String)
    (hc : (hasattrE env (pfx ++ type_name t) && callableE env (pfx ++ type_name t)) = false)
    (hb : firstBase? t.fieldsOf = none) :
    get_action_func env t pfx =
      (if hasattrE env pfx && callableE env pfx then some pfx else none) := by
  rw [get_action_func]
  simp only [hc, Bool.false_eq_true, if_false]
  split <;> simp_all

theorem gaf_first_base (env : HookEnv) (t b : GdbType) (pfx : String)
    (hc : (hasattrE env (pfx ++ type_name t) && callableE env (pfx ++ type_name t)) = false)
    (hb : firstBase? t.fieldsOf = some b) :
    get_action_func env t pfx =
      (if hasattrE env (pfx ++ type_name b) then some (pfx ++ type_name b)
       else get_action_func env b pfx) := by
  rw [get_action_func]
  simp only [hc, Bool.false_eq_true, if_false]
  split <;> simp_all

theorem gaf_eq_resolveFlat (env : HookEnv) (t : GdbType) (pfx : String) :
    get_action_func env t pfx = resolveFlat env t pfx := by
  by_cases hc : (hasattrE env (pfx ++ type_name t) && callableE env (pfx ++ type_name t)) = true
  · rw [gaf_exact env t pfx hc, resolveFlat]
    simp [hc]
  · have hc' : (hasattrE env (pfx ++ type_name t) && callableE env (pfx ++ type_name t)) = false := by
      simpa using hc
    cases hb : firstBase? t.fieldsOf with
    | none =>
      rw [gaf_no_base env t pfx hc' hb, resolveFlat]
      simp [hc', hookChain_none t hb]
    | some b =>
      have ih := gaf_eq_resolveFlat env b pfx
      rw [gaf_first_base env t b pfx hc' hb, resolveFlat]
      simp only [hc', Bool.false_eq_true, if_false, hookChain_some t b hb, List.find?_cons]
      by_cases hab : hasattrE env (pfx ++ type_name b) = true
      · simp [hab]
      · have hab' : hasattrE env (pfx ++ type_name b) = false := by simpa using hab
        simp only [hab', Bool.false_eq_true, if_false, ih, resolveFlat]
        simp [hab']
termination_by sizeOf t
decreasing_by exact sizeOf_firstBase_lt _ _ hb

/-! ## Claims C1 and C2 — hook resolution order -/

/-- Hook environment for the C1 divergence: the engine defines exactly the
template/element-keyed expand hook the spec's step 1 would look for. -/
def env_c1 : HookEnv := ⟨[("walk_templ_Node", true)]⟩

/-- The generic root type. -/
def node_t : GdbType :=
  .struc (some "Node") "Node" [(false, some "type", .scalar "NodeTag")]

/-- A pointer to the generic list wrapper type. -/
def listptr_c1 : GdbType :=
  .ptrTo (.struc (some "List") "List"
    [(false, some "type", .scalar "NodeTag"),
     (false, some "length", .scalar "int"),
     (false, some "elements", .ptrTo (.struc (some "ListCell") "ListCell" []))])

/-- C1, counterexample.  The claim says resolution prefers a
template/element-type-keyed hook, resolved over the element type's
hierarchy, before everything else.  With an engine that defines exactly
that hook (`walk_templ_Node`) and nothing else, resolution as the spec
states it (step 1 of §4.3, `resolveSpecWithElem`) finds the hook, but the
code's `get_action_func` — which has no template step and takes no element
type at all — resolves nothing for the generic list wrapper type. -/
theorem c1_template_step_missing :
    resolveSpecWithElem env_c1 "walk_" listptr_c1 (some node_t) = some "walk_templ_Node"
    ∧ get_action_func env_c1 listptr_c1 "walk_" = none := by
  constructor
  · rw [resolveSpecWithElem, searchHier]
    simp [env_c1, node_t, hasattrE, type_name, GdbType.name?, List.lookup]
  · rw [get_action_func]
    simp [env_c1, listptr_c1, hasattrE, callableE, type_name, GdbType.name?,
      GdbType.toStr, GdbType.fieldsOf, firstBase?, List.lookup]

/-- C1, amended.  For every operation kind (action prefix — the engine
uses `show_` and `walk_`), `get_action_func` resolves, in order: the hook
named exactly after the node's dynamic type (pointer types resolved to
their target's name) provided it is callable; then the first hook name
that exists along the chain obtained by repeatedly taking the first
declared base class; then the family-default bare-prefix hook provided it
is callable; and otherwise no hook.  (`resolveFlat` is that preference
order written as a linear search; there is no template/element-type-keyed
step.) -/
theorem c1_resolution_order (env : HookEnv) (t : GdbType) (pfx : String) :
    get_action_func env t pfx = resolveFlat env t pfx :=
  gaf_eq_resolveFlat env t pfx

/-- Hook environment for C2: a hook registered solely under the *second*
base class's name. -/
def env_c2 : HookEnv := ⟨[("walk_Second", true)]⟩

def base1_t : GdbType := .struc (some "First") "First" []
def base2_t : GdbType := .struc (some "Second") "Second" []

/-- A dynamic type declaring two base classes, in order `First`,
`Second`. -/
def derived_t : GdbType :=
  .struc (some "Derived") "Derived"
    [(true, some "First", base1_t), (true, some "Second", base2_t)]

/-- C2.  The resolver commits to the first declared base class only:
resolution over a type whose field list starts with a base-class field is
identical to resolution over the same type with *only* that first base
(later bases — and every later field — are never examined); concretely, a
hook registered solely under the second base class's name is never found
and resolution yields no hook. -/
theorem c2_first_base_only :
    (∀ (env : HookEnv) (n : Option String) (s : String) (fnm : Option String)
       (b1 : GdbType) (rest : List (Bool × Option String × GdbType)) (pfx : String),
      get_action_func env (.struc n s ((true, fnm, b1) :: rest)) pfx
        = get_action_func env (.struc n s [(true, fnm, b1)]) pfx)
    ∧ get_action_func env_c2 derived_t "walk_" = none := by
  constructor
  · intro env n s fnm b1 rest pfx
    have hb1 : firstBase? (GdbType.struc n s ((true, fnm, b1) :: rest)).fieldsOf
        = some b1 := by
      simp [GdbType.fieldsOf, firstBase?]
    have hb2 : firstBase? (GdbType.struc n s [(true, fnm, b1)]).fieldsOf
        = some b1 := by
      simp [GdbType.fieldsOf, firstBase?]
    by_cases hc : (hasattrE env (pfx ++ type_name (GdbType.struc n s ((true, fnm, b1) :: rest)))
        && callableE env (pfx ++ type_name (GdbType.struc n s ((true, fnm, b1) :: rest)))) = true
    · rw [gaf_exact env _ pfx hc, gaf_exact env (GdbType.struc n s [(true, fnm, b1)]) pfx hc]
      rfl
    · have hc' : (hasattrE env (pfx ++ type_name (GdbType.struc n s ((true, fnm, b1) :: rest)))
          && callableE env (pfx ++ type_name (GdbType.struc n s ((true, fnm, b1) :: rest)))) = false := by
        simpa using hc
      rw [gaf_first_base env _ b1 pfx hc' hb1,
        gaf_first_base env (GdbType.struc n s [(true, fnm, b1)]) b1 pfx hc' hb2]
  · have hc1 : (hasattrE env_c2 ("walk_" ++ type_name derived_t)
        && callableE env_c2 ("walk_" ++ type_name derived_t)) = false := by
      simp [env_c2, derived_t, hasattrE, callableE, type_name, GdbType.name?, List.lookup]
    have hb : firstBase? derived_t.fieldsOf = some base1_t := by
      simp [derived_t, GdbType.fieldsOf, firstBase?]
    rw [gaf_first_base env_c2 derived_t base1_t "walk_" hc1 hb]
    have hab : hasattrE env_c2 ("walk_" ++ type_name base1_t) = false := by
      simp [env_c2, base1_t, hasattrE, type_name, GdbType.name?, List.lookup]
    have hc2 : (hasattrE env_c2 ("walk_" ++ type_name base1_t)
        && callableE env_c2 ("walk_" ++ type_name base1_t)) = false := by
      simp [hab]
    have hb2 : firstBase? base1_t.fieldsOf = none := by
      simp [base1_t, GdbType.fieldsOf, firstBase?]
    rw [gaf_no_base env_c2 base1_t "walk_" hc2 hb2]
    simp [hab, env_c2, hasattrE, callableE, List.lookup, base1_t, type_name, GdbType.name?]

/-! ## Claims C3, C4, C5 — the tagged value decoder -/

/-- The `List` struct type of the C3 scenario. -/
def listST : GdbType :=
  .struc (some "List") "List"
    [(false, some "type", .scalar "NodeTag"),
     (false, some "length", .scalar "int"),
     (false, some "elements", .scalar "ListCellArr")]

/-- The `ListCell` union type. -/
def cellST : GdbType := .struc (some "ListCell") "ListCell" []

/-- Heap for C3: an integer-tagged list (discriminant 451) of length one
whose only cell carries `int_value = 7`. -/
def heap_c3 : Heap :=
  [(100, .structv listST
    [("type", .enumv 451 "T_IntList"),
     ("length", .intv 1),
     ("elements", .arrv [.structv cellST [("int_value", .intv 7)]])])]

def catalog_c3 : Catalog := [("Node", node_t)]

/-- The list header value of C3: a `List *` pointing at address 100. -/
def val_c3 : GVal := .ptrv listST 100

/-- C3, counterexample.  The claim says non-pointer-kind elements are
skipped and never appear in the child set.  On an integer-kind list
(`451`, not the pointer kind `1`) `walk_List` forwards the decoded scalar
`7` as a child: the child set is `[7]`, not the empty set the claim
demands. -/
theorem c3_int_element_forwarded :
    walk_List heap_c3 catalog_c3 3 val_c3 = .ok [GVal.intv 7]
    ∧ ListCell_Int ≠ ListCell_ptr
    ∧ [GVal.intv 7] ≠ ([] : List GVal) := by
  refine ⟨rfl, by decide, by simp⟩

/-- C3, amended.  `walk_List` feeds the list through the Tagged List
Iterator and forwards *every* yielded element's decoded value as a child,
regardless of payload kind — pointer-kind elements as their decoded
target nodes and the three scalar kinds as their scalar values; no
element is skipped. -/
theorem c3_all_elements_forwarded (heap : Heap) (catalog : Catalog) (fuel : Nat)
    (val : GVal) (l : ListL) (cells : List ListCellL) (lf : ListL)
    (h1 : mkList heap catalog val (some "Node") = .ok l)
    (h2 : runIter heap catalog fuel l = .ok (cells, lf)) :
    walk_List heap catalog fuel val = .ok (cells.map (fun c => c.value)) := by
  unfold walk_List
  rw [h1]
  simp [h2]

/-- The iterator state C3's header decodes to. -/
def list_c3 : ListL :=
  ⟨451, "int_value", 1, .arrv [.structv cellST [("int_value", .intv 7)]], 0, some node_t⟩

/-- Witness for `c3_all_elements_forwarded` at the C3 scenario. -/
theorem c3_all_elements_forwarded_witness :
    mkList heap_c3 catalog_c3 val_c3 (some "Node") = .ok list_c3
    ∧ runIter heap_c3 catalog_c3 3 list_c3
        = .ok ([⟨451, GVal.intv 7⟩], { list_c3 with _index := 1 })
    ∧ walk_List heap_c3 catalog_c3 3 val_c3
        = .ok (([⟨451, GVal.intv 7⟩] : List ListCellL).map (fun c => c.value)) :=
  ⟨rfl, rfl, c3_all_elements_forwarded heap_c3 catalog_c3 3 val_c3 list_c3
    [⟨451, GVal.intv 7⟩] { list_c3 with _index := 1 } rfl rfl⟩

/-- C4.  For a pointer-tagged list cell (`type_values` kind 1) whose
declared element type is the generic root type (named `Node`), decoding
reads the discriminant tag at the start of the pointee, strips the fixed
two-character prefix from the tag's textual form, resolves that name in
the type catalog, and the decoded target is a pointer (same address) to
the resolved concrete type — whose name, when the catalog is sane, is
exactly the stripped tag text (round-trip tag → name → type). -/
theorem c4_tag_name_roundtrip (heap : Heap) (catalog : Catalog)
    (ct pt ot nodeT concT : GdbType) (cfs ofs : List (String × GVal))
    (addr : Nat) (tagnum : Int) (tagstr : String)
    (hptr : cfs.lookup "ptr_value" = some (.ptrv pt addr))
    (hnodeName : nodeT.name? = some "Node")
    (hcatNode : catalog.lookup "Node" = some nodeT)
    (hheap : heapGet heap addr = some (.structv ot ofs))
    (htag : ofs.lookup "type" = some (.enumv tagnum tagstr))
    (hcatConc : catalog.lookup (tagstr.drop 2) = some concT)
    (hconcName : concT.name? = some (tagstr.drop 2)) :
    mkListCell heap catalog ListCell_ptr (.structv ct cfs) (some nodeT)
      = .ok ⟨ListCell_ptr, .ptrv concT addr⟩
    ∧ concT.name? = some ((pyStr (GVal.enumv tagnum tagstr)).drop 2) := by
  refine ⟨?_, by simpa [pyStr] using hconcName⟩
  have hheap' : List.lookup addr heap = some (GVal.structv ot ofs) := hheap
  cases pt <;>
    simp [mkListCell, type_values, List.lookup, readField, hptr, hnodeName,
      cast_Node, cast_Node_step1, lookup_type, hcatNode, heapGet, hheap', htag,
      pyStr, gvalCast, hcatConc, ListCell_ptr]

/-- The heap of the C4 witness: a cell whose `ptr_value` is a `void *` to
address 7, where a `T_OpExpr`-tagged node lives. -/
def opexpr_t : GdbType := .struc (some "OpExpr") "OpExpr" [(false, some "opno", .scalar "Oid")]

def heap_c4 : Heap :=
  [(7, .structv opexpr_t [("type", .enumv 504 "T_OpExpr"), ("opno", .intv 96)])]

def catalog_c4 : Catalog := [("Node", node_t), ("OpExpr", opexpr_t)]

def cellfs_c4 : List (String × GVal) := [("ptr_value", .ptrv .void 7)]

/-- Witness for `c4_tag_name_roundtrip` at a concrete pointee. -/
theorem c4_tag_name_roundtrip_witness :
    cellfs_c4.lookup "ptr_value" = some (.ptrv .void 7)
    ∧ node_t.name? = some "Node"
    ∧ heapGet heap_c4 7 = some (.structv opexpr_t
        [("type", .enumv 504 "T_OpExpr"), ("opno", .intv 96)])
    ∧ (mkListCell heap_c4 catalog_c4 ListCell_ptr (.structv cellST cellfs_c4) (some node_t)
        = .ok ⟨ListCell_ptr, .ptrv opexpr_t 7⟩
      ∧ opexpr_t.name? = some ((pyStr (GVal.enumv 504 "T_OpExpr")).drop 2)) :=
  ⟨rfl, rfl, rfl,
    c4_tag_name_roundtrip heap_c4 catalog_c4 cellST .void opexpr_t node_t opexpr_t
      cellfs_c4 [("type", .enumv 504 "T_OpExpr"), ("opno", .intv 96)] 7 504 "T_OpExpr"
      rfl rfl rfl rfl rfl rfl rfl⟩

/-- C5.  A discriminant tag outside the four known payload kinds fails the
`type_values` dict lookup, so decoding a cell raises `KeyError` (the
spec's `UnknownTagError`) rather than defaulting to any payload kind;
constructing the iterator over a header with such a tag raises the same
error, and the error propagates out of `walk_List`, aborting the
enclosing expansion. -/
theorem c5_unknown_tag_hard_error (heap : Heap) (catalog : Catalog) (tag : Int)
    (v hval tv : GVal) (vt : Option GdbType) (ptn : Option String) (fuel : Nat)
    (h1 : tag ≠ ListCell_ptr) (h2 : tag ≠ ListCell_Int)
    (h3 : tag ≠ ListCell_Oid) (h4 : tag ≠ ListCell_Xid)
    (hhv : readField heap hval "type" = .ok tv) (htv : pyInt tv = tag) :
    mkListCell heap catalog tag v vt = .error .keyError
    ∧ mkList heap catalog hval ptn = .error .keyError
    ∧ walk_List heap catalog fuel hval = .error .keyError := by
  have hlk : type_values.lookup tag = none := by
    have e1 : (tag == ListCell_ptr) = false := by simp [h1]
    have e2 : (tag == ListCell_Int) = false := by simp [h2]
    have e3 : (tag == ListCell_Oid) = false := by simp [h3]
    have e4 : (tag == ListCell_Xid) = false := by simp [h4]
    simp [type_values, List.lookup, e1, e2, e3, e4]
  have hml : ∀ ptn' : Option String, mkList heap catalog hval ptn' = .error .keyError := by
    intro ptn'
    unfold mkList
    rw [hhv]
    simp [htv, hlk]
  refine ⟨?_, hml ptn, ?_⟩
  · unfold mkListCell
    rw [hlk]
  · unfold walk_List
    rw [hml (some "Node")]

/-- A header carrying the unknown tag 999, for the C5 witness. -/
def heap_c5 : Heap :=
  [(100, .structv listST
    [("type", .enumv 999 "T_Bogus"), ("length", .intv 1), ("elements", .arrv [])])]

/-- Witness for `c5_unknown_tag_hard_error` at tag 999. -/
theorem c5_unknown_tag_hard_error_witness :
    ((999 : Int) ≠ ListCell_ptr ∧ (999 : Int) ≠ ListCell_Int
      ∧ (999 : Int) ≠ ListCell_Oid ∧ (999 : Int) ≠ ListCell_Xid)
    ∧ readField heap_c5 (.ptrv listST 100) "type" = .ok (.enumv 999 "T_Bogus")
    ∧ (mkListCell heap_c5 [] 999 (.intv 0) none = .error .keyError
      ∧ mkList heap_c5 [] (.ptrv listST 100) (some "Node") = .error .keyError
      ∧ walk_List heap_c5 [] 4 (.ptrv listST 100) = .error .keyError) :=
  ⟨⟨by decide, by decide, by decide, by decide⟩, rfl,
    c5_unknown_tag_hard_error heap_c5 [] 999 (.intv 0) (.ptrv listST 100)
      (.enumv 999 "T_Bogus") none (some "Node") 4
      (by decide) (by decide) (by decide) (by decide) rfl rfl⟩

/-! ## Claims C6 and C9 — the Tagged List Iterator -/

/-- Decode a list of raw elements through `ListCell.__init__` one by one
(the sequence of decodes a full iteration performs), propagating the
first error. -/
def decodeAll (heap : Heap) (catalog : Catalog) (typ : Int) (vt : Option GdbType) :
    List GVal → Except PgErr (List ListCellL)
  | [] => .ok []
  | v :: vs =>
    match mkListCell heap catalog typ v vt with
    | .error e => .error e
    | .ok c =>
      match decodeAll heap catalog typ vt vs with
      | .error e => .error e
      | .ok cs => .ok (c :: cs)

theorem decodeAll_length (heap : Heap) (catalog : Catalog) (typ : Int)
    (vt : Option GdbType) : ∀ (xs : List GVal) (cs : List ListCellL),
    decodeAll heap catalog typ vt xs = .ok cs → cs.length = xs.length := by
  intro xs
  induction xs with
  | nil => intro cs h; simp [decodeAll] at h; simp [← h]
  | cons v vs ih =>
    intro cs h
    simp only [decodeAll] at h
    cases hm : mkListCell heap catalog typ v vt with
    | error e => rw [hm] at h; simp at h
    | ok c =>
      rw [hm] at h
      cases hd : decodeAll heap catalog typ vt vs with
      | error e => rw [hd] at h; simp at h
      | ok cs' =>
        rw [hd] at h
        simp at h
        subst h
        simp [ih cs' hd]

theorem next_exhausted (heap : Heap) (catalog : Catalog) (l : ListL)
    (h : l._index ≥ l.length) : ListL.next heap catalog l = .ok none := by
  unfold ListL.next
  simp [h]

/-- Updating `_index` to its current value is the identity. -/
theorem listL_set_index_self (l : ListL) (x : Int) (hx : l._index = x) :
    { l with _index := x } = l := by
  cases l
  simp_all

/-- One productive iterator step, read off from the definitions. -/
theorem next_step (heap : Heap) (catalog : Catalog) (l : ListL) (xs : List GVal)
    (k : Nat) (c : ListCellL)
    (hel : l._elements = .arrv xs) (hidx : l._index = (k : Int))
    (hk : k < xs.length) (hlen : l.length = (xs.length : Int))
    (hdec : mkListCell heap catalog l._type xs[k] l._ptr_type = .ok c) :
    ListL.next heap catalog l = .ok (some (c, { l with _index := l._index + 1 })) := by
  unfold ListL.next
  have hnotge : ¬ l._index ≥ l.length := by
    rw [hidx, hlen]
    exact_mod_cast Nat.not_le.mpr hk
  rw [if_neg hnotge, hel]
  have hai : arrIndex (GVal.arrv xs) l._index = .ok xs[k] := by
    rw [hidx]
    simp [arrIndex, hk]
  rw [hai]
  simp [hdec]

/-- The workhorse for C6: starting at index `k` of a fully materialized
array whose length agrees with the header's `length` field, the iterator
yields exactly the decodes of the remaining elements, in order, and stops
in the exhausted state. -/
theorem runIter_from (heap : Heap) (catalog : Catalog) :
    ∀ (fuel : Nat) (l : ListL) (xs : List GVal) (k : Nat) (cs : List ListCellL),
    l._elements = .arrv xs → l._index = (k : Int) → l.length = (xs.length : Int) →
    k ≤ xs.length →
    decodeAll heap catalog l._type l._ptr_type (xs.drop k) = .ok cs →
    xs.length - k < fuel →
    runIter heap catalog fuel l = .ok (cs, { l with _index := l.length }) := by
  intro fuel
  induction fuel with
  | zero => intro l xs k cs _ _ _ _ _ hf; omega
  | succ fuel ih =>
    intro l xs k cs hel hidx hlen hk hdec hf
    by_cases hend : k = xs.length
    · subst hend
      have hge : l._index ≥ l.length := by rw [hidx, hlen]
      have hcs : cs = [] := by
        rw [List.drop_length] at hdec
        simp [decodeAll] at hdec
        exact hdec
      subst hcs
      unfold runIter
      rw [next_exhausted heap catalog l hge,
        listL_set_index_self l l.length (by rw [hidx, hlen])]
    · have hklt : k < xs.length := by omega
      rw [List.drop_eq_getElem_cons hklt] at hdec
      simp only [decodeAll] at hdec
      cases hm : mkListCell heap catalog l._type xs[k] l._ptr_type with
      | error e => rw [hm] at hdec; simp at hdec
      | ok c =>
        rw [hm] at hdec
        cases hd : decodeAll heap catalog l._type l._ptr_type (xs.drop (k + 1)) with
        | error e => rw [hd] at hdec; simp at hdec
        | ok cs' =>
          rw [hd] at hdec
          simp at hdec
          subst hdec
          unfold runIter
          rw [next_step heap catalog l xs k c hel hidx hklt hlen hm]
          have hrec := ih { l with _index := l._index + 1 } xs (k + 1) cs'
            (by simpa using hel) (by rw [hidx]; push_cast; ring) (by simpa using hlen)
            (by omega) (by simpa using hd) (by omega)
          simp [hrec]

theorem lookup_type_err (catalog : Catalog) (n : String) (e : PgErr)
    (h : lookup_type catalog n = .error e) : e = .gdbError := by
  unfold lookup_type at h
  split at h <;> simp_all

theorem readField_err (heap : Heap) (v : GVal) (f : String) (e : PgErr)
    (h : readField heap v f = .error e) : e = .gdbError ∨ e = .typeError := by
  unfold readField at h
  split at h
  · split at h <;> simp_all
  · split at h
    · split at h <;> simp_all
    · simp_all
  · simp_all

theorem cast_Node_step1_err (catalog : Catalog) (val : GVal) (e : PgErr)
    (h : cast_Node_step1 catalog val = .error e) : e = .gdbError ∨ e = .typeError := by
  unfold cast_Node_step1 at h
  split at h
  · split at h
    · split at h
      · simp_all
      · rename_i heq
        simp_all
        exact Or.inl (lookup_type_err _ _ _ heq)
    · simp_all
  · simp_all

theorem cast_Node_err (heap : Heap) (catalog : Catalog) (val : GVal) (e : PgErr)
    (h : cast_Node heap catalog val = .error e) : e ≠ .outOfRange := by
  unfold cast_Node at h
  split at h
  · rename_i e1 heq
    have h1 : e1 = e := by simp_all
    subst h1
    rcases cast_Node_step1_err catalog val e1 heq with h1 | h1 <;> simp [h1]
  · rename_i v1 heq1
    split at h
    · rename_i e1 heq
      have h1 : e1 = e := by simp_all
      subst h1
      rcases readField_err heap v1 "type" e1 heq with h1 | h1 <;> simp [h1]
    · rename_i tagv heq2
      split at h
      · rename_i e1 heq
        have h1 : e1 = e := by simp_all
        subst h1
        have := lookup_type_err catalog _ e1 heq
        simp [this]
      · simp_all

theorem mkListCell_err (heap : Heap) (catalog : Catalog) (typ : Int) (v : GVal)
    (vt : Option GdbType) (e : PgErr)
    (h : mkListCell heap catalog typ v vt = .error e) : e ≠ .outOfRange := by
  unfold mkListCell at h
  split at h
  · injection h with h'
    rw [← h']
    simp
  · rename_i member heq
    split at h
    · rename_i e1 heq2
      have h1 : e1 = e := by simp_all
      subst h1
      rcases readField_err heap v member e1 heq2 with h1 | h1 <;> simp [h1]
    · rename_i v0 heq2
      split at h
      · simp_all
      · split at h
        · injection h with h'
          rw [← h']
          simp
        · rename_i vt1
          split at h
          · split at h
            · rename_i e1 heq3
              have h1 : e1 = e := by simp_all
              subst h1
              exact cast_Node_err heap catalog v0 e1 heq3
            · simp_all
          · simp_all

theorem next_ne_oor (heap : Heap) (catalog : Catalog) (l : ListL) (xs : List GVal)
    (hel : l._elements = .arrv xs) (h0 : 0 ≤ l._index)
    (hlen : l.length ≤ (xs.length : Int)) :
    ListL.next heap catalog l ≠ .error .outOfRange := by
  unfold ListL.next
  by_cases hge : l._index ≥ l.length
  · simp [hge]
  · rw [if_neg hge, hel]
    have hb : 0 ≤ l._index ∧ l._index.toNat < xs.length := ⟨h0, by omega⟩
    simp only [arrIndex]
    rw [dif_pos hb]
    split
    · rename_i e hm
      simp at hm
    · rename_i elv heq
      cases hm : mkListCell heap catalog l._type elv l._ptr_type with
      | error e =>
        simp [hm]
        exact mkListCell_err _ _ _ _ _ _ hm
      | ok c => simp [hm]

theorem next_ok_some_shape (heap : Heap) (catalog : Catalog) (l : ListL)
    (c : ListCellL) (l' : ListL)
    (h : ListL.next heap catalog l = .ok (some (c, l'))) :
    l' = { l with _index := l._index + 1 } := by
  unfold ListL.next at h
  split at h
  · simp_all
  · split at h
    · simp_all
    · split at h
      · simp_all
      · rename_i cell heq
        simp only [Except.ok.injEq, Option.some.injEq, Prod.mk.injEq] at h
        exact h.2.symm

theorem runIter_ne_oor (heap : Heap) (catalog : Catalog) :
    ∀ (fuel : Nat) (l : ListL) (xs : List GVal),
    l._elements = .arrv xs → 0 ≤ l._index → l.length ≤ (xs.length : Int) →
    runIter heap catalog fuel l ≠ .error .outOfRange := by
  intro fuel
  induction fuel with
  | zero => intro l xs _ _ _; simp [runIter]
  | succ fuel ih =>
    intro l xs hel h0 hlen
    unfold runIter
    cases hnext : ListL.next heap catalog l with
    | error e =>
      have hne := next_ne_oor heap catalog l xs hel h0 hlen
      rw [hnext] at hne
      simpa using hne
    | ok o =>
      cases o with
      | none => simp
      | some p =>
        obtain ⟨c, l'⟩ := p
        have hsh := next_ok_some_shape heap catalog l c l' hnext
        have hih := ih l' xs (by rw [hsh]; simpa using hel) (by rw [hsh]; simp; omega)
          (by rw [hsh]; simpa using hlen)
        cases hri : runIter heap catalog fuel l' with
        | error e =>
          rw [hri] at hih
          simp [hri]
          simpa using hih
        | ok p2 =>
          obtain ⟨cs, lf⟩ := p2
          simp [hri]

/-- C6.  For a well-formed tagged list — fresh iterator (index 0), a
materialized elements array whose length agrees with the header's
`length` field, and every per-index decode succeeding — iterating yields
exactly `length` decoded elements, one `next()` per element, in index
order (the order of `decodeAll` over the array), and a further `next()`
on the exhausted final state signals end-of-sequence (`.ok none`), not an
error. -/
theorem c6_iterator_yields_count (heap : Heap) (catalog : Catalog) (l : ListL)
    (xs : List GVal) (cs : List ListCellL) (fuel : Nat)
    (hidx : l._index = 0) (hel : l._elements = .arrv xs)
    (hlen : l.length = (xs.length : Int))
    (hdec : decodeAll heap catalog l._type l._ptr_type xs = .ok cs)
    (hfuel : xs.length < fuel) :
    runIter heap catalog fuel l = .ok (cs, { l with _index := l.length })
    ∧ cs.length = xs.length
    ∧ ListL.next heap catalog { l with _index := l.length } = .ok none := by
  refine ⟨?_, decodeAll_length heap catalog l._type l._ptr_type xs cs hdec, ?_⟩
  · exact runIter_from heap catalog fuel l xs 0 cs hel (by simpa using hidx) hlen
      (by omega) (by simpa using hdec) (by omega)
  · apply next_exhausted
    simp

/-- The concrete two-element integer list of the C6 witness. -/
def list_c6 : ListL :=
  ⟨451, "int_value", 2,
   .arrv [.structv cellST [("int_value", .intv 7)],
          .structv cellST [("int_value", .intv 8)]], 0, none⟩

/-- Witness for `c6_iterator_yields_count`. -/
theorem c6_iterator_yields_count_witness :
    decodeAll [] [] list_c6._type list_c6._ptr_type
        [.structv cellST [("int_value", .intv 7)],
         .structv cellST [("int_value", .intv 8)]]
      = .ok [⟨451, .intv 7⟩, ⟨451, .intv 8⟩]
    ∧ (runIter [] [] 3 list_c6
        = .ok ([⟨451, .intv 7⟩, ⟨451, .intv 8⟩], { list_c6 with _index := list_c6.length })
      ∧ ([⟨451, GVal.intv 7⟩, ⟨451, GVal.intv 8⟩] : List ListCellL).length
          = ([.structv cellST [("int_value", .intv 7)],
              .structv cellST [("int_value", .intv 8)]] : List GVal).length
      ∧ ListL.next [] [] { list_c6 with _index := list_c6.length } = .ok none) :=
  ⟨rfl, c6_iterator_yields_count [] [] list_c6 _ _ 3 rfl rfl rfl rfl (by simp)⟩

/-- C9.  The iterator never reads the elements array outside the window
`[0, length)`: a `next()` on a state whose index has reached the header
length — in particular the very first `next()` when the length field is
zero or negative — signals end-of-sequence without indexing the array at
all (for *any* `_elements` value, including an empty array where every
read would be the model error `outOfRange`); and over an array covering
`[0, length)` a full iteration can never produce `outOfRange`. -/
theorem c9_never_reads_out_of_bounds :
    (∀ (heap : Heap) (catalog : Catalog) (l : ListL),
      l._index = 0 → l.length ≤ 0 → ListL.next heap catalog l = .ok none)
    ∧ (∀ (heap : Heap) (catalog : Catalog) (fuel : Nat) (l : ListL) (xs : List GVal),
      l._elements = .arrv xs → 0 ≤ l._index → l.length ≤ (xs.length : Int) →
      runIter heap catalog fuel l ≠ .error .outOfRange) := by
  constructor
  · intro heap catalog l hidx hlen
    apply next_exhausted
    omega
  · intro heap catalog fuel l xs hel h0 hlen
    exact runIter_ne_oor heap catalog fuel l xs hel h0 hlen

/-- A malformed header with negative length, for the C9 witness. -/
def list_c9 : ListL := ⟨1, "ptr_value", -5, .arrv [], 0, none⟩

/-- Witness for `c9_never_reads_out_of_bounds`: a header whose length
field is `-5` and whose materialized array is empty. -/
theorem c9_never_reads_out_of_bounds_witness :
    (list_c9._index = 0 ∧ list_c9.length ≤ 0 ∧ list_c9._elements = .arrv []
      ∧ (0 : Int) ≤ list_c9._index ∧ list_c9.length ≤ (([] : List GVal).length : Int))
    ∧ ListL.next [] [] list_c9 = .ok none
    ∧ runIter [] [] 4 list_c9 ≠ .error .outOfRange :=
  ⟨⟨rfl, by decide, rfl, by decide, by decide⟩,
    c9_never_reads_out_of_bounds.1 [] [] list_c9 rfl (by decide),
    c9_never_reads_out_of_bounds.2 [] [] 4 list_c9 [] rfl (by decide) (by decide)⟩

/-! ## Claims C7, C8, C10 — the tree walker -/

theorem preamble_output (level : Nat) (st : WalkerState) :
    (preamble level st).2.2.output = st.output := rfl

/-- The children loop only appends to the output, provided each recursive
visit only appends. -/
theorem wcl_grows (recur : GVal → WalkerState → Except PgErr WalkerState) (level : Nat)
    (hrec : ∀ c st st', recur c st = .ok st' → ∃ d, st'.output = st.output ++ d) :
    ∀ (cs : List GVal) (st st' : WalkerState),
    walkChildrenLoop recur level cs st = .ok st' →
    ∃ d, st'.output = st.output ++ d := by
  intro cs
  induction cs with
  | nil =>
    intro st st' h
    simp [walkChildrenLoop] at h
    subst h
    exact ⟨[], by simp⟩
  | cons c rest ih =>
    intro st st' h
    simp only [walkChildrenLoop] at h
    cases hr : recur c (if rest.isEmpty then
        { st with level_graph := st.level_graph.set level "`" } else st) with
    | error e => rw [hr] at h; simp at h
    | ok st1 =>
      rw [hr] at h
      obtain ⟨d1, hd1⟩ := hrec _ _ _ hr
      obtain ⟨d2, hd2⟩ := ih _ _ h
      refine ⟨d1 ++ d2, ?_⟩
      rw [hd2, hd1]
      have hsame : (if rest.isEmpty then
          { st with level_graph := st.level_graph.set level "`" } else st).output
          = st.output := by
        split <;> rfl
      rw [hsame, List.append_assoc]

/-- The children loop is sequential: the head child's entire visit
completes (from the possibly backtick-marked state) before any later
sibling is visited. -/
theorem wcl_sequential (recur : GVal → WalkerState → Except PgErr WalkerState)
    (level : Nat) (c : GVal) (rest : List GVal) (st st' : WalkerState)
    (h : walkChildrenLoop recur level (c :: rest) st = .ok st') :
    ∃ st1, recur c (if rest.isEmpty then
        { st with level_graph := st.level_graph.set level "`" } else st) = .ok st1
      ∧ walkChildrenLoop recur level rest st1 = .ok st' := by
  simp only [walkChildrenLoop] at h
  cases hr : recur c (if rest.isEmpty then
      { st with level_graph := st.level_graph.set level "`" } else st) with
  | error e => rw [hr] at h; simp at h
  | ok st1 =>
    rw [hr] at h
    exact ⟨st1, rfl, h⟩

/-- The expansion phase only appends to the output. -/
theorem expandPhase_grows (recur : GVal → WalkerState → Except PgErr WalkerState)
    (env : HookEnv) (walkFn : String → GVal → Except PgErr (List GVal))
    (expr_typed : GdbType) (expr_casted : GVal) (level : Nat) (st st' : WalkerState)
    (hrec : ∀ c s s', recur c s = .ok s' → ∃ d, s'.output = s.output ++ d)
    (h : expandPhase recur env walkFn expr_typed expr_casted level st = .ok st') :
    ∃ d, st'.output = st.output ++ d := by
  unfold expandPhase at h
  split at h
  · simp at h
    subst h
    exact ⟨[], by simp⟩
  · split at h
    · simp at h
    · split at h
      · simp at h
        subst h
        exact ⟨[], by simp⟩
      · obtain ⟨d, hd⟩ := wcl_grows recur level hrec _ _ _ h
        exact ⟨d, by rw [hd]⟩

/-- A visit only appends to the output (output lines are never reordered
or removed). -/
theorem do_walk_grows :
    ∀ (fuel : Nat) (tw : TW) (expr : GVal) (level : Nat) (st st' : WalkerState),
    do_walk tw fuel expr level st = .ok st' →
    ∃ d, st'.output = st.output ++ d := by
  intro fuel
  induction fuel with
  | zero => intro tw expr level st st' h; simp [do_walk] at h
  | succ fuel ih =>
    intro tw expr level st st' h
    simp only [do_walk] at h
    cases hs : showResult tw (dynamicType expr) (gvalCast expr (dynamicType expr)) with
    | error e => rw [hs] at h; simp at h
    | ok info? =>
      rw [hs] at h
      cases info? with
      | some info =>
        simp only at h
        obtain ⟨d, hd⟩ := expandPhase_grows _ _ _ _ _ _ _ _
          (fun c s s' hc => ih tw c (level + 1) s s' hc) h
        refine ⟨nodeLine (preamble level st).1 (preamble level st).2.1
          (dynamicType expr) expr info :: d, ?_⟩
        rw [hd]
        simp [preamble_output]
      | none =>
        simp only at h
        obtain ⟨d, hd⟩ := expandPhase_grows _ _ _ _ _ _ _ _
          (fun c s s' hc => ih tw c (level + 1) s s' hc) h
        refine ⟨d, ?_⟩
        rw [hd]
        simp [preamble_output]

/-- When the describe step yields a string, the node's own line is emitted
immediately after the previously accumulated output, before anything the
subtree emits. -/
theorem do_walk_line_first (fuel : Nat) (tw : TW) (expr : GVal) (level : Nat)
    (st st' : WalkerState) (info : String)
    (hs : showResult tw (dynamicType expr) (gvalCast expr (dynamicType expr))
      = .ok (some info))
    (h : do_walk tw (fuel + 1) expr level st = .ok st') :
    ∃ d, st'.output = st.output ++ nodeLine (preamble level st).1
      (preamble level st).2.1 (dynamicType expr) expr info :: d := by
  simp only [do_walk] at h
  rw [hs] at h
  simp only at h
  obtain ⟨d, hd⟩ := expandPhase_grows _ _ _ _ _ _ _ _
    (fun c s s' hc => do_walk_grows fuel tw c (level + 1) s s' hc) h
  refine ⟨d, ?_⟩
  rw [hd]
  simp [preamble_output]

/-- C7.  In a visit of one node whose describe hook resolves: if the hook
returns the empty string, the node's line is printed with no extra
description fields (the formatted line with empty trailing info) and the
walk proceeds to the expansion phase from the line-extended state; if the
hook returns Python's `None`, the line is suppressed (output untouched)
but the walk proceeds to the *same* expansion phase — the children are
still expanded and visited. -/
theorem c7_empty_vs_absent_description (tw : TW) (fuel : Nat) (expr : GVal)
    (level : Nat) (st : WalkerState) (nm : String)
    (hres : get_action_func tw.env (dynamicType expr) show_func_pfx = some nm) :
    (tw.showFn nm (gvalCast expr (dynamicType expr)) = .ok (some "") →
      do_walk tw (fuel + 1) expr level st =
        expandPhase (fun c stc => do_walk tw fuel c (level + 1) stc) tw.env tw.walkFn
          (dynamicType expr) (gvalCast expr (dynamicType expr)) level
          { (preamble level st).2.2 with output :=
              (preamble level st).2.2.output ++
                [nodeLine (preamble level st).1 (preamble level st).2.1
                  (dynamicType expr) expr ""] })
    ∧ (tw.showFn nm (gvalCast expr (dynamicType expr)) = .ok none →
      do_walk tw (fuel + 1) expr level st =
        expandPhase (fun c stc => do_walk tw fuel c (level + 1) stc) tw.env tw.walkFn
          (dynamicType expr) (gvalCast expr (dynamicType expr)) level
          (preamble level st).2.2) := by
  constructor <;> intro h <;> simp only [do_walk, showResult, hres, h]

def foo_t : GdbType := .struc (some "FooNode") "FooNode" []
def st0 : WalkerState := ⟨[], 0, 0, []⟩

/-- Engine for the C7 witness: a describe hook returning the empty string
and an expand hook returning no children. -/
def tw_c7 : TW :=
  { env := ⟨[("show_", true)]⟩,
    showFn := fun _ _ => .ok (some ""),
    walkFn := fun _ _ => .ok [] }

/-- Witness for `c7_empty_vs_absent_description`. -/
theorem c7_empty_vs_absent_description_witness :
    get_action_func tw_c7.env (dynamicType (.ptrv foo_t 5)) show_func_pfx = some "show_"
    ∧ tw_c7.showFn "show_" (gvalCast (.ptrv foo_t 5) (dynamicType (.ptrv foo_t 5)))
        = .ok (some "")
    ∧ do_walk tw_c7 (0 + 1) (.ptrv foo_t 5) 0 st0 =
        expandPhase (fun c stc => do_walk tw_c7 0 c (0 + 1) stc) tw_c7.env tw_c7.walkFn
          (dynamicType (.ptrv foo_t 5)) (gvalCast (.ptrv foo_t 5) (dynamicType (.ptrv foo_t 5))) 0
          { (preamble 0 st0).2.2 with output :=
              (preamble 0 st0).2.2.output ++
                [nodeLine (preamble 0 st0).1 (preamble 0 st0).2.1
                  (dynamicType (.ptrv foo_t 5)) (.ptrv foo_t 5) ""] } := by
  have hres : get_action_func tw_c7.env (dynamicType (GVal.ptrv foo_t 5)) show_func_pfx
      = some "show_" := by
    rw [get_action_func]
    simp [tw_c7, foo_t, hasattrE, callableE, type_name, GdbType.name?,
      GdbType.fieldsOf, firstBase?, List.lookup, dynamicType, GVal.gtype, show_func_pfx]
  exact ⟨hres, rfl,
    (c7_empty_vs_absent_description tw_c7 0 (.ptrv foo_t 5) 0 st0 "show_" hres).1 rfl⟩

/-- C8.  Pre-order emission: (i) a visit only ever appends to the emitted
line sequence; (ii) when the describe step yields a string, the node's
own line is appended strictly before every line its subtree emits;
(iii) the children loop is sequential in the expand hook's list order —
the head child's entire visit completes before any later sibling is
visited, with no sorting. -/
theorem c8_preorder_emission :
    (∀ (tw : TW) (fuel : Nat) (expr : GVal) (level : Nat) (st st' : WalkerState),
      do_walk tw fuel expr level st = .ok st' →
      ∃ d, st'.output = st.output ++ d)
    ∧ (∀ (tw : TW) (fuel : Nat) (expr : GVal) (level : Nat) (st st' : WalkerState)
        (info : String),
      showResult tw (dynamicType expr) (gvalCast expr (dynamicType expr))
        = .ok (some info) →
      do_walk tw (fuel + 1) expr level st = .ok st' →
      ∃ d, st'.output = st.output ++ nodeLine (preamble level st).1
        (preamble level st).2.1 (dynamicType expr) expr info :: d)
    ∧ (∀ (recur : GVal → WalkerState → Except PgErr WalkerState) (level : Nat)
        (c : GVal) (rest : List GVal) (st st' : WalkerState),
      walkChildrenLoop recur level (c :: rest) st = .ok st' →
      ∃ st1, recur c (if rest.isEmpty then
          { st with level_graph := st.level_graph.set level "`" } else st) = .ok st1
        ∧ walkChildrenLoop recur level rest st1 = .ok st') :=
  ⟨fun tw fuel expr level st st' h => do_walk_grows fuel tw expr level st st' h,
   fun tw fuel expr level st st' info hs h =>
     do_walk_line_first fuel tw expr level st st' info hs h,
   fun recur level c rest st st' h => wcl_sequential recur level c rest st st' h⟩

/-- Engine for the C8 witness. -/
def tw_c8 : TW :=
  { env := ⟨[("show_", true), ("walk_", true)]⟩,
    showFn := fun _ _ => .ok (some "hi"),
    walkFn := fun _ _ => .ok [] }

/-- The state the C8 witness walk ends in. -/
def wst_c8 : WalkerState := ⟨[], 1, 0, ["$nv0 (FooNode *) 0x5 hi"]⟩

/-- Witness for `c8_preorder_emission`. -/
theorem c8_preorder_emission_witness :
    do_walk tw_c8 (1 + 1) (.ptrv foo_t 5) 0 st0 = .ok wst_c8
    ∧ showResult tw_c8 (dynamicType (.ptrv foo_t 5))
        (gvalCast (.ptrv foo_t 5) (dynamicType (.ptrv foo_t 5))) = .ok (some "hi")
    ∧ walkChildrenLoop (fun _ s => .ok s) 0 [.ptrv foo_t 5] st0 = .ok st0
    ∧ (∃ d, wst_c8.output = st0.output ++ d)
    ∧ (∃ d, wst_c8.output = st0.output ++ nodeLine (preamble 0 st0).1
        (preamble 0 st0).2.1 (dynamicType (.ptrv foo_t 5)) (.ptrv foo_t 5) "hi" :: d)
    ∧ (∃ st1, (fun (_ : GVal) (s : WalkerState) => (.ok s : Except PgErr WalkerState))
          (.ptrv foo_t 5) (if ([] : List GVal).isEmpty then
            { st0 with level_graph := st0.level_graph.set 0 "`" } else st0) = .ok st1
        ∧ walkChildrenLoop (fun _ s => .ok s) 0 [] st1 = .ok st0) := by
  have hress : get_action_func ⟨[("show_", true), ("walk_", true)]⟩
      ((GdbType.struc (some "FooNode") "FooNode" []).ptrTo) show_func_pfx
      = some "show_" := by
    rw [get_action_func]
    simp [hasattrE, callableE, type_name, GdbType.name?,
      GdbType.fieldsOf, firstBase?, List.lookup, show_func_pfx]
  have hresw : get_action_func ⟨[("show_", true), ("walk_", true)]⟩
      ((GdbType.struc (some "FooNode") "FooNode" []).ptrTo) walk_func_pfx
      = some "walk_" := by
    rw [get_action_func]
    simp [hasattrE, callableE, type_name, GdbType.name?,
      GdbType.fieldsOf, firstBase?, List.lookup, walk_func_pfx]
  have hdw : do_walk tw_c8 (1 + 1) (.ptrv foo_t 5) 0 st0 = .ok wst_c8 := by
    simp [do_walk, showResult, hress, hresw, expandPhase, preamble, set_var, nodeLine,
      tw_c8, foo_t, dynamicType, GVal.gtype, gvalCast, pyStr, GdbType.toStr, st0, wst_c8]
    rfl
  have hsr : showResult tw_c8 (dynamicType (.ptrv foo_t 5))
      (gvalCast (.ptrv foo_t 5) (dynamicType (.ptrv foo_t 5))) = .ok (some "hi") := by
    simp [showResult, hress, tw_c8, foo_t, dynamicType, GVal.gtype]
  refine ⟨hdw, hsr, rfl, ?_, ?_, ?_⟩
  · exact c8_preorder_emission.1 tw_c8 (1 + 1) (.ptrv foo_t 5) 0 st0 wst_c8 hdw
  · exact c8_preorder_emission.2.1 tw_c8 1 (.ptrv foo_t 5) 0 st0 wst_c8 "hi" hsr hdw
  · exact c8_preorder_emission.2.2 (fun _ s => .ok s) 0 (.ptrv foo_t 5) [] st0 st0 rfl

/-- C10.  The expression-tree walker's describe hook is total and
string-valued: (i) `show_` returns the empty string for every pointee
type whose name is outside the `display_fields` whitelist (including a
nameless type); (ii) for every C-style node type (no base-class fields)
with no exact-named describe attribute, hook resolution on the
`ExprTraverser` namespace lands on the family default `show_`;
(iii) whenever `show_` succeeds with a string, the walker's describe step
yields `some` of it — never the absent value — so the node's line is
printed and the line-suppression branch is not taken. -/
theorem c10_expr_describe_always_string :
    (∀ (heap : Heap) (t : GdbType) (a : Nat),
      (∀ nm, t.name? = some nm → display_fields.lookup nm = none) →
      show_ heap (.ptrv t a) = .ok "")
    ∧ (∀ (heap : Heap) (catalog : Catalog) (fuelL : Nat) (t : GdbType),
      firstBase? t.fieldsOf = none →
      (exprTW heap catalog fuelL).env.attrs.lookup
        (show_func_pfx ++ type_name (.ptrTo t)) = none →
      get_action_func (exprTW heap catalog fuelL).env (.ptrTo t) show_func_pfx
        = some "show_")
    ∧ (∀ (heap : Heap) (catalog : Catalog) (fuelL : Nat) (expr : GVal) (s : String),
      get_action_func (exprTW heap catalog fuelL).env (dynamicType expr) show_func_pfx
        = some "show_" →
      show_ heap (gvalCast expr (dynamicType expr)) = .ok s →
      showResult (exprTW heap catalog fuelL) (dynamicType expr)
        (gvalCast expr (dynamicType expr)) = .ok (some s)
      ∧ ∀ (fuel level : Nat) (st st' : WalkerState),
        do_walk (exprTW heap catalog fuelL) (fuel + 1) expr level st = .ok st' →
        ∃ d, st'.output = st.output ++ nodeLine (preamble level st).1
          (preamble level st).2.1 (dynamicType expr) expr s :: d) := by
  refine ⟨?_, ?_, ?_⟩
  · intro heap t a hwl
    cases hn : t.name? with
    | none => simp [show_, hn]
    | some nm => simp [show_, hn, hwl nm hn]
  · intro heap catalog fuelL t hfb hlk
    have hc' : (hasattrE (exprTW heap catalog fuelL).env
          (show_func_pfx ++ type_name (.ptrTo t))
        && callableE (exprTW heap catalog fuelL).env
          (show_func_pfx ++ type_name (.ptrTo t))) = false := by
      simp [hasattrE, hlk]
    have hb : firstBase? (GdbType.ptrTo t).fieldsOf = none := by
      simpa [GdbType.fieldsOf] using hfb
    rw [gaf_no_base _ _ _ hc' hb]
    simp [exprTW, exprEnvAttrs, hasattrE, callableE, List.lookup, show_func_pfx]
  · intro heap catalog fuelL expr s hres hs
    have hsr : showResult (exprTW heap catalog fuelL) (dynamicType expr)
        (gvalCast expr (dynamicType expr)) = .ok (some s) := by
      simp only [showResult, hres]
      simp [exprTW, hs]
    exact ⟨hsr, fun fuel level st st' h =>
      do_walk_line_first fuel _ expr level st st' s hsr h⟩

/-- The state the C10 witness walk ends in: one line, no suppression. -/
def wst_c10 : WalkerState := ⟨[], 1, 0, ["$nv0 (FooNode *) 0x5 "]⟩

/-- Witness for `c10_expr_describe_always_string`: a node of a type
outside the whitelist, visited by the `ExprTraverser` engine, prints its
line with an empty description. -/
theorem c10_expr_describe_always_string_witness :
    (∀ nm, foo_t.name? = some nm → display_fields.lookup nm = none)
    ∧ show_ [] (.ptrv foo_t 5) = .ok ""
    ∧ firstBase? foo_t.fieldsOf = none
    ∧ (exprTW [] [] 1).env.attrs.lookup (show_func_pfx ++ type_name (.ptrTo foo_t)) = none
    ∧ get_action_func (exprTW [] [] 1).env (.ptrTo foo_t) show_func_pfx = some "show_"
    ∧ showResult (exprTW [] [] 1) (dynamicType (.ptrv foo_t 5))
        (gvalCast (.ptrv foo_t 5) (dynamicType (.ptrv foo_t 5))) = .ok (some "")
    ∧ do_walk (exprTW [] [] 1) (0 + 1) (.ptrv foo_t 5) 0 st0 = .ok wst_c10
    ∧ (∃ d, wst_c10.output = st0.output ++ nodeLine (preamble 0 st0).1
        (preamble 0 st0).2.1 (dynamicType (.ptrv foo_t 5)) (.ptrv foo_t 5) "" :: d) := by
  have hwl : ∀ nm, foo_t.name? = some nm → display_fields.lookup nm = none := by
    intro nm hnm
    simp [foo_t, GdbType.name?] at hnm
    subst hnm
    simp [display_fields, List.lookup]
  have hress : get_action_func (exprTW [] [] 1).env (.ptrTo foo_t) show_func_pfx
      = some "show_" :=
    c10_expr_describe_always_string.2.1 [] [] 1 foo_t rfl (by
      simp [exprTW, exprEnvAttrs, type_name, foo_t, GdbType.name?, List.lookup,
        show_func_pfx])
  have hshow : show_ [] (gvalCast (.ptrv foo_t 5) (dynamicType (.ptrv foo_t 5))) = .ok "" :=
    c10_expr_describe_always_string.1 [] foo_t 5 hwl
  have hmain := c10_expr_describe_always_string.2.2 [] [] 1 (.ptrv foo_t 5) "" hress hshow
  have hress' : get_action_func ⟨exprEnvAttrs⟩
      ((GdbType.struc (some "FooNode") "FooNode" []).ptrTo) show_func_pfx
      = some "show_" := hress
  have hresw' : get_action_func ⟨exprEnvAttrs⟩
      ((GdbType.struc (some "FooNode") "FooNode" []).ptrTo) walk_func_pfx
      = some "walk_" := by
    rw [get_action_func]
    simp [exprEnvAttrs, hasattrE, callableE, type_name, GdbType.name?,
      GdbType.fieldsOf, firstBase?, List.lookup, walk_func_pfx]
  have hdw : do_walk (exprTW [] [] 1) (0 + 1) (.ptrv foo_t 5) 0 st0 = .ok wst_c10 := by
    simp [do_walk, showResult, hress', hresw', expandPhase, preamble, set_var, nodeLine,
      exprTW, show_, walk_, _walk_to_args, has_field, hasFieldFs, foo_t, dynamicType,
      GVal.gtype, gvalCast, pyStr, GdbType.toStr, GdbType.name?, GdbType.fieldsOf,
      display_fields, List.lookup, st0, wst_c10]
    rfl
  exact ⟨hwl, hshow, rfl, by
      simp [exprTW, exprEnvAttrs, type_name, foo_t, GdbType.name?, List.lookup,
        show_func_pfx],
    hress, hmain.1, hdw, hmain.2 0 0 st0 wst_c10 hdw⟩
